import Mathlib

set_option maxHeartbeats 1000000

/-! Verification development for the component base class
(src/mson/component/component.js): a property store with change
detection, event wiring with asynchronous action chains, schema
accumulation, identity keys and cloning. -/

/-! ## JS values -/

mutual
/-- JS values as used by the component core. `undefined` and `jsNull` are JS
`undefined` and `null`. Arrays and plain objects carry their own spines
(`JsArr`, `JsObj`) so that equality is decidable. A listener object
`{event, actions}` is represented by a dedicated constructor whose actions
are opaque capability identifiers, since actions are externally injected
objects whose only visible behaviour is their asynchronous `run`. Equality
on `JsVal` models JS `===` at the points where the component code compares
values (those comparisons are on primitives; the aliasing special case in
`_push` is modelled explicitly there). -/
inductive JsVal where
  | undefined
  | jsNull
  | bool (b : Bool)
  | num (n : Int)
  | str (s : String)
  | arr (xs : JsArr)
  | obj (fs : JsObj)
  | listenerVal (event : String) (actions : List Nat)
deriving DecidableEq, Repr

/-- Spine of a JS array of `JsVal`s. -/
inductive JsArr where
  | nil
  | cons (v : JsVal) (tl : JsArr)
deriving DecidableEq, Repr

/-- Spine of a JS plain object: own enumerable string-keyed fields in
insertion order. -/
inductive JsObj where
  | nil
  | cons (k : String) (v : JsVal) (tl : JsObj)
deriving DecidableEq, Repr
end

/-- Length of a JS array. -/
def JsArr.length : JsArr → Nat
  | .nil => 0
  | .cons _ tl => 1 + tl.length

/-- Appending one element at the end of a JS array (`values.push(value)`). -/
def JsArr.pushBack : JsArr → JsVal → JsArr
  | .nil, v => .cons v .nil
  | .cons x tl, v => .cons x (tl.pushBack v)

/-- A JS array built from a Lean list. -/
def JsArr.ofList : List JsVal → JsArr
  | [] => .nil
  | x :: xs => .cons x (JsArr.ofList xs)

/-- Property read `o[k]` on a plain object: first binding wins, `undefined`
when the key is absent. -/
def JsObj.get : JsObj → String → JsVal
  | .nil, _ => .undefined
  | .cons k v tl, n => if k = n then v else tl.get n

/-- A JS object built from a Lean association list. -/
def JsObj.ofList : List (String × JsVal) → JsObj
  | [] => .nil
  | (k, v) :: rest => .cons k v (JsObj.ofList rest)

/-- The own enumerable fields of the component instance itself. The code
stores every property `p` directly on the instance as a field `_p`
(see the NOTE at the top of component.js). -/
abbrev Fields := List (String × JsVal)

/-- Field read `this[k]` on the instance: `undefined` when the field is
absent. -/
def fieldGet : Fields → String → JsVal
  | [], _ => .undefined
  | (k, v) :: rest, n => if k = n then v else fieldGet rest n

/-- Field write `this[k] = v`: updates an existing binding in place
(keeping its position, as JS objects keep insertion order for string keys)
or appends a new one. -/
def fieldSet : Fields → String → JsVal → Fields
  | [], n, v => [(n, v)]
  | (k, w) :: rest, n, v =>
      if k = n then (k, v) :: rest else (k, w) :: fieldSet rest n v

/-- JS `typeof x === 'object'`; note that `typeof null` and `typeof` of any
array are both `'object'`. -/
def typeofIsObject : JsVal → Bool
  | .jsNull => true
  | .arr _ => true
  | .obj _ => true
  | .listenerVal _ _ => true
  | _ => false

/-- JS truthiness. -/
def truthy : JsVal → Bool
  | .undefined => false
  | .jsNull => false
  | .bool b => b
  | .num n => n != 0
  | .str s => s != ""
  | _ => true

/-- Property read `base[name]` for an arbitrary base value: throws a
TypeError on `null`/`undefined`; plain objects use their own fields; arrays
and strings expose `length` (the component code only ever reads the names
`name`, `listeners`, `passed`, `schema` and `event` through this operation,
none of which lives on the relevant prototypes); a listener object exposes
its `event` (its `actions` are opaque capabilities, consumed structurally
by the wiring, never through this generic read). -/
def jsIndex : JsVal → String → Except String JsVal
  | .undefined, _ => .error "TypeError: cannot read properties of undefined"
  | .jsNull, _ => .error "TypeError: cannot read properties of null"
  | .obj fs, n => .ok (fs.get n)
  | .arr xs, n => .ok (if n = "length" then .num xs.length else .undefined)
  | .str s, n => .ok (if n = "length" then .num s.length else .undefined)
  | .listenerVal e _, n => .ok (if n = "event" then .str e else .undefined)
  | _, _ => .ok .undefined

/-- String.replace('_', '') on a field name: removes the first underscore
only, as in `name.replace('_', '')` inside `get()`. -/
def stripOneUnderscore (cs : List Char) : List Char :=
  match cs with
  | [] => []
  | c :: rest => if c = '_' then rest else c :: stripOneUnderscore rest

/-- The stripped form of an internal field name used by `get()`. -/
def stripUnderscore (s : String) : String :=
  ⟨stripOneUnderscore s.data⟩

/-! ## Event system state -/

/-- A subscription installed by `_setListeners`. `emitCreated` and
`emitLoaded` are the instance's stable `_emitCreatedFactory` /
`_emitLoadedFactory` arrow functions (stable identities, so
`removeListener` can find them on the next `set`). `chain` is the fresh
async closure subscribed for one declared listener `{event, actions}`;
it captures the declared event, the action list and the injected
`ifData` (`props.passed`). -/
inductive Handler where
  | emitCreated
  | emitLoaded
  | chain (event : String) (actions : List Nat) (ifData : JsVal)
deriving DecidableEq, Repr

/-- A suspended listener chain: one firing of a declared listener that has
started and is parked at an `await`. `output` is the previous action's
result (initially `null`, per `let output = null`). -/
structure ChainTask where
  event : String
  actions : List Nat
  ifData : JsVal
  output : JsVal
deriving DecidableEq, Repr

/-- Observable happenings, in order: an `emit(name)` call on the
component (the emitted payload values are never inspected by any handler
in the code, so the trace records only names), and the resolution or
rejection of one injected action's `run`. -/
inductive Ev where
  | emit (name : String)
  | actionDone (id : Nat)
  | actionFailed (id : Nat)
deriving DecidableEq, Repr

/-- A component instance: its own fields (`_name`, `_schema`, `_key`, ...)
and its EventEmitter subscription list in `on` order. -/
structure Component where
  props : Fields
  subs : List (String × Handler)
deriving DecidableEq, Repr

/-- One single-threaded turn of the host: the component, the microtask
queue of suspended chains, and the trace of happenings so far. -/
structure SchedState where
  comp : Component
  queue : List ChainTask
  trace : List Ev
deriving DecidableEq, Repr

/-- The listeners registered for one event name, in subscription order
(Node's `emit` calls them in `on` order, over a snapshot of the list). -/
def handlersFor (subs : List (String × Handler)) (ev : String) : List Handler :=
  (subs.filter (fun p => p.1 == ev)).map Prod.snd

/-- The further emissions a handler performs synchronously when invoked.
The factories run `_emitChange('created')` / `_emitChange('loaded')`,
i.e. `emit(milestone)` followed by `emit('$change')`. A chain handler with
a nonempty action list suspends at its first `await` before emitting
anything; with an empty action list its whole async body runs
synchronously, so its trailing `switch` on the declared event emits the
milestone at once. -/
def handlerEmits : Handler → List String
  | .emitCreated => ["created", "$change"]
  | .emitLoaded => ["loaded", "$change"]
  | .chain ev acts _ =>
    match acts with
    | [] =>
        if ev = "create" then ["created", "$change"]
        else if ev = "load" then ["loaded", "$change"]
        else []
    | _ :: _ => []

/-- The microtask a handler parks when invoked: a chain with a nonempty
action list calls `actions[0].run(...)` and suspends at the `await`;
every other handler completes synchronously. -/
def handlerTask : Handler → Option ChainTask
  | .chain ev (a :: rest) ifData => some ⟨ev, a :: rest, ifData, .jsNull⟩
  | _ => none

/-- Synchronous `emit(name)`: record the emission, then invoke each
handler subscribed for `name` in order (over a snapshot of the list, as
Node does). A handler may itself emit (recursively, at lower fuel) or
park a suspended chain on the microtask queue. Fuel bounds the
synchronous emit recursion; every development below uses fuel generously
above the recursion depth actually reached. -/
def emitNow : Nat → String → SchedState → SchedState
  | 0, _, st => st
  | Nat.succ f, name, st =>
    (handlersFor st.comp.subs name).foldl
      (fun acc h =>
        let acc1 : SchedState :=
          match handlerTask h with
          | some t => { acc with queue := acc.queue ++ [t] }
          | none => acc
        (handlerEmits h).foldl (fun a n => emitNow f n a) acc1)
      { st with trace := st.trace ++ [Ev.emit name] }

/-- Invoking one handler, named for reasoning: park its chain task, if
any, then perform its synchronous follow-up emissions. `emitNow` at
successor fuel is exactly a fold of this step over the subscribed
handlers. -/
def handlerStep (f : Nat) (acc : SchedState) (h : Handler) : SchedState :=
  let acc1 : SchedState :=
    match handlerTask h with
    | some t => { acc with queue := acc.queue ++ [t] }
    | none => acc
  (handlerEmits h).foldl (fun a n => emitNow f n a) acc1

/-- `_emitChange(name, value)`: `emit(name, value)` then
`emit('$change', name, value)` (component.js lines 73-76). -/
def emitChange (f : Nat) (name : String) (st : SchedState) : SchedState :=
  emitNow f "$change" (emitNow f name st)

/-! ## Property store -/

/-- The store-and-guard part of `_set(name, value)` (lines 78-89): the
prop changes only when the new value differs from `this['_' + name]` and
the change is not the suppressed `undefined → null` transition. Returns
the fields and whether `_emitChange` fires. -/
def _setP (props : Fields) (name : String) (value : JsVal) : Fields × Bool :=
  let cur := fieldGet props ("_" ++ name)
  if cur ≠ value ∧ (cur ≠ .undefined ∨ value ≠ .jsNull) then
    (fieldSet props ("_" ++ name) value, true)
  else
    (props, false)

/-- `_set(name, value)` in context: store, then `_emitChange(name, value)`
exactly when the guard passed. -/
def _setNow (f : Nat) (st : SchedState) (name : String) (value : JsVal) :
    SchedState :=
  let r := _setP st.comp.props name value
  let st1 : SchedState := { st with comp := { st.comp with props := r.1 } }
  if r.2 then emitChange f name st1 else st1

/-- `_get(name)` (lines 208-211): an unset prop reads as `null`. -/
def _get (props : Fields) (name : String) : JsVal :=
  if fieldGet props ("_" ++ name) = .undefined then .jsNull
  else fieldGet props ("_" ++ name)

/-- `_getIfAllowed(name, ...allowedNames)` (lines 213-217): `undefined`
for a name outside the allow-list (the JS function returns nothing on
that path). -/
def _getIfAllowed (props : Fields) (name : String) (allowed : List String) :
    JsVal :=
  if name ∈ allowed then _get props name else .undefined

/-- `getOne(name)` (lines 219-221). -/
def getOne (props : Fields) (name : String) : JsVal :=
  _getIfAllowed props name ["name", "listeners", "passed", "schema"]

/-- The no-argument branch of `get()` (lines 223-231): `_.each(this, ...)`
walks every own enumerable field, strips the first underscore from its
name and assigns `values[n] = this.getOne(n)` — note that the assignment
creates the key `n` on the snapshot even when `getOne` returned
`undefined`. -/
def getAll (props : Fields) : Fields :=
  props.foldl
    (fun acc p =>
      fieldSet acc (stripUnderscore p.1) (getOne props (stripUnderscore p.1)))
    []

/-- The array branch of `get(names)` (lines 232-238). Non-string entries
never match the string allow-list and are outside the modelled use. -/
def getMany (props : Fields) : JsArr → Fields → Fields
  | .nil, acc => acc
  | .cons (.str s) tl, acc => getMany props tl (fieldSet acc s (getOne props s))
  | .cons _ tl, acc => getMany props tl acc

/-- `get(names)` (lines 223-243): falsy argument → full snapshot; array →
partial snapshot; string → single allow-listed value; any other truthy
argument reaches `getOne`, whose `indexOf` on the string allow-list never
matches it, giving `undefined`. -/
def get (props : Fields) (names : JsVal) : JsVal :=
  if truthy names = false then .obj (JsObj.ofList (getAll props))
  else
    match names with
    | .arr xs => .obj (JsObj.ofList (getMany props xs []))
    | .str s => getOne props s
    | _ => .undefined

/-- `_push(name, value)` (lines 91-98). `this._get(name)` returns the
stored array when there is one, and `values.push(value)` mutates that very
array in place; the subsequent `this._set(name, values)` then compares the
array with itself (`!==` is reference identity for objects), so it is a
no-op: the stored value has grown but no event fires. Only when the prop
held no array does `_set` receive a fresh `[value]`, store it and emit. -/
def _pushNow (f : Nat) (st : SchedState) (name : String) (value : JsVal) :
    SchedState :=
  match _get st.comp.props name with
  | .arr xs =>
      { st with comp := { st.comp with
          props := fieldSet st.comp.props ("_" ++ name) (.arr (xs.pushBack value)) } }
  | _ => _setNow f st name (.arr (.cons value .nil))

/-! ## Listener wiring -/

/-- Removing the first matching subscription of a list. -/
def removeFirstSub :
    List (String × Handler) → String × Handler → List (String × Handler)
  | [], _ => []
  | x :: rest, p => if x = p then rest else removeFirstSub rest p |> (x :: ·)

/-- Node's `removeListener(ev, h)`: removes the most recently added
matching subscription, if any. -/
def removeLastSub (xs : List (String × Handler)) (p : String × Handler) :
    List (String × Handler) :=
  (removeFirstSub xs.reverse p).reverse

/-- `this.removeListener(ev, h)` on the component. -/
def removeSub (st : SchedState) (ev : String) (h : Handler) : SchedState :=
  { st with comp := { st.comp with subs := removeLastSub st.comp.subs (ev, h) } }

/-- `this.on(ev, h)`: Node appends the subscription. -/
def addSub (st : SchedState) (ev : String) (h : Handler) : SchedState :=
  { st with comp := { st.comp with subs := st.comp.subs ++ [(ev, h)] } }

/-- `props.listeners.forEach(listener => this.on(listener.event, async ...))`
(lines 155-183): one fresh chain handler per declared listener, in list
order. Entries that are not listener objects fall outside the spec's
Listener shape and the modelled contract; they register nothing. -/
def chainsOf (ifData : JsVal) : JsArr → List (String × Handler)
  | .nil => []
  | .cons (.listenerVal e acts) tl => (e, .chain e acts ifData) :: chainsOf ifData tl
  | .cons _ tl => chainsOf ifData tl

/-- `_setIfUndefinedProp(props, name)` (lines 100-104). -/
def _setIfUndefinedProp (f : Nat) (st : SchedState) (props : JsVal)
    (name : String) : Except String SchedState :=
  match jsIndex props name with
  | .error e => .error e
  | .ok v => .ok (if v = .undefined then st else _setNow f st name v)

/-- `_setName(props)` (lines 112-114). -/
def _setName (f : Nat) (st : SchedState) (props : JsVal) :
    Except String SchedState :=
  _setIfUndefinedProp f st props "name"

/-- `_setPassed(props)` (lines 116-118). -/
def _setPassed (f : Nat) (st : SchedState) (props : JsVal) :
    Except String SchedState :=
  _setIfUndefinedProp f st props "passed"

/-- `_setListeners(props)` (lines 137-192). The locals `hasOnCreate` and
`hasOnLoad` are only ever assigned inside the async handlers, which cannot
have run before this function returns, so at the trailing
`if (!hasOnCreate)` / `if (!hasOnLoad)` they are still `false`: the
default `created`/`loaded` pass-through emitters are re-subscribed
unconditionally, whether or not a listener declared `create`/`load`. Only
those two defaults are removed up front; chain handlers subscribed by an
earlier call are left in place (the TODO at lines 152-153 records the
leak). -/
def _setListenersFn (f : Nat) (st : SchedState) (props : JsVal) :
    Except String SchedState :=
  let st1 := removeSub st "create" .emitCreated
  let st2 := removeSub st1 "load" .emitLoaded
  match jsIndex props "listeners" with
  | .error e => .error e
  | .ok ls =>
    if ls = .undefined then
      .ok (addSub (addSub st2 "create" .emitCreated) "load" .emitLoaded)
    else
      match jsIndex props "passed" with
      | .error e => .error e
      | .ok ifData =>
        let st3 := _setNow f st2 "listeners" ls
        match ls with
        | .arr items =>
          let st4 : SchedState := { st3 with comp := { st3.comp with
              subs := st3.comp.subs ++ chainsOf ifData items } }
          .ok (addSub (addSub st4 "create" .emitCreated) "load" .emitLoaded)
        | _ => .error "TypeError: props.listeners.forEach is not a function"

/-- `set(props)` (lines 194-206): the `typeof props !== 'object'` guard
(`typeof null` and `typeof` of an array are both `'object'`), then
`_setName`, `_setListeners`, `_setPassed`, then the accumulating schema
push when `props.schema !== undefined`. -/
def setFn (f : Nat) (st : SchedState) (props : JsVal) :
    Except String SchedState :=
  if typeofIsObject props = false then .error "props must be an object"
  else
    match _setName f st props with
    | .error e => .error e
    | .ok st1 =>
      match _setListenersFn f st1 props with
      | .error e => .error e
      | .ok st2 =>
        match _setPassed f st2 props with
        | .error e => .error e
        | .ok st3 =>
          match jsIndex props "schema" with
          | .error e => .error e
          | .ok v => .ok (if v = .undefined then st3 else _pushNow f st3 "schema" v)

/-! ## Actions and the microtask queue -/

/-- The context handed to an injected action's `run` (the Action contract
the core requires of its collaborators): `{event, component, ifData,
arguments}`. The `component` reference is modelled by the `setProps`
capability in `ActionOutcome`, which lets a running action invoke the
component's `set`. -/
structure ActionCtx where
  event : String
  ifData : JsVal
  arguments : JsVal
deriving DecidableEq, Repr

/-- What one injected action does when run: resolve with an output value,
optionally after calling `component.set(props)` while running, or reject. -/
inductive ActionOutcome where
  | ok (output : JsVal) (setProps : Option JsVal)
  | fail
deriving DecidableEq, Repr

/-- A family of injected actions, keyed by the opaque identifiers used in
listener declarations. -/
abbrev ActionEnv := Nat → ActionCtx → ActionOutcome

/-- Resuming one suspended chain at its parked `await` (lines 156-182).
On rejection the async handler rethrows: the remaining actions never run
and the trailing milestone `switch` is never reached. On resolution the
`for` loop either parks at the next action's `await` (behind any other
pending microtasks) or, when the chain is exhausted, runs the `switch`
that re-emits `created`/`loaded` for a listener declared on exactly
`create`/`load`. A `set` performed by the action happens inside `run`,
before the await resolves, hence before `actionDone` is recorded; a `set`
that throws inside `run` rejects the chain like a rejecting action (any
mutation such a throwing `set` performed first is not modelled; no
development below reaches that corner). -/
def runTask (f : Nat) (env : ActionEnv) (st : SchedState) (t : ChainTask) :
    SchedState :=
  match t.actions with
  | [] => st
  | a :: rest =>
    match env a ⟨t.event, t.ifData, t.output⟩ with
    | .fail => { st with trace := st.trace ++ [Ev.actionFailed a] }
    | .ok out setP =>
      let committed : Except String SchedState :=
        match setP with
        | none => .ok st
        | some p => setFn f st p
      match committed with
      | .error _ => { st with trace := st.trace ++ [Ev.actionFailed a] }
      | .ok st1 =>
        let st2 : SchedState := { st1 with trace := st1.trace ++ [Ev.actionDone a] }
        match rest with
        | _ :: _ =>
            { st2 with queue := st2.queue ++ [⟨t.event, rest, t.ifData, out⟩] }
        | [] =>
          if t.event = "create" then emitChange f "created" st2
          else if t.event = "load" then emitChange f "loaded" st2
          else st2

/-- Draining the microtask queue: chains resume in FIFO order, which is
the order their awaited promises settle when actions resolve promptly
(the deterministic schedule this development commits to). -/
def runQueue : Nat → ActionEnv → SchedState → SchedState
  | 0, _, st => st
  | Nat.succ f, env, st =>
    match st.queue with
    | [] => st
    | t :: ts => runQueue f env (runTask f env { st with queue := ts } t)

/-! ## Construction, identity, cloning -/

/-- The module-level identity counter (lines 4-7): `getNextKey()` returns
the current counter value and increments it. -/
def getNextKey (nextKey : Nat) : Nat × Nat :=
  (nextKey, nextKey + 1)

/-- The base component's own MSON schema fragment
(`_getComponentMSONSchema`, lines 17-43). -/
def componentMSONSchema : JsVal :=
  .obj (.cons "component" (.str "Form")
    (.cons "fields" (.arr
      (.cons (.obj (.cons "name" (.str "component")
                (.cons "component" (.str "TextField") .nil)))
      (.cons (.obj (.cons "name" (.str "name")
                (.cons "component" (.str "TextField")
                  (.cons "required" (.bool true) .nil))))
      (.cons (.obj (.cons "name" (.str "schema")
                (.cons "component" (.str "FormField")
                  (.cons "form" (.obj (.cons "component" (.str "ObjectForm") .nil))
                    .nil))))
        .nil))))
      .nil))

/-- The constructor (lines 45-63) against an initial world counter: set
the name early when `props` is truthy (so `null` skips this but then
throws inside `set`); `_create` pushes the base schema fragment through
`set`; the supplied props go through `set` (`{}` when the constructor was
called without arguments); `create` is emitted; finally the identity key
is allocated. Chains subscribed on `create` have by then only parked
their first `await`; the queue drains when the caller's turn ends. -/
def construct (f : Nat) (props : JsVal) (nextKey : Nat) :
    Except String (SchedState × Nat) :=
  let st0 : SchedState := ⟨⟨[], []⟩, [], []⟩
  match (if truthy props then _setName f st0 props else .ok st0) with
  | .error e => .error e
  | .ok st1 =>
    match setFn f st1 (.obj (.cons "schema" componentMSONSchema .nil)) with
    | .error e => .error e
    | .ok st2 =>
      match setFn f st2 (if props = .undefined then .obj .nil else props) with
      | .error e => .error e
      | .ok st3 =>
        let st4 := emitChange f "create" st3
        let key := getNextKey nextKey
        .ok ({ st4 with comp := { st4.comp with
            props := fieldSet st4.comp.props "_key" (.num key.1) } }, key.2)

/-- `clone()` (lines 254-262): `_.cloneDeep(this)` copies every own field
by value — the identity key included — and `removeAllListeners()` then
empties the duplicate's subscription list. The clone never consults the
module counter. -/
def clone (c : Component) : Component :=
  { props := c.props, subs := [] }

/-- `getKey()` (lines 277-279): a direct read of the `_key` field. -/
def getKey (c : Component) : JsVal :=
  fieldGet c.props "_key"

/-- `emitLoad()` (lines 265-267). -/
def emitLoad (f : Nat) (st : SchedState) : SchedState :=
  emitChange f "load" st

/-- A component freshly constructed from world counter 0, its queue not
yet drained. Every use below constructs from an object literal, on which
`construct` cannot throw; the fallback branch is unreachable there. -/
def built (props : JsVal) : SchedState :=
  match construct 10 props 0 with
  | .ok p => p.1
  | .error _ => ⟨⟨[], []⟩, [], []⟩

/-- A props object declaring one listener per `(event, actions)` pair. -/
def mkListeners (ls : List (String × List Nat)) : JsVal :=
  .obj (.cons "listeners"
    (.arr (JsArr.ofList (ls.map (fun p => .listenerVal p.1 p.2)))) .nil)

/-- The array stored in `_p` after `_push(p, v)`, as a function of the
previously stored value. -/
def pushVal (cur v : JsVal) : JsVal :=
  match cur with
  | .arr xs => .arr (xs.pushBack v)
  | _ => .arr (.cons v .nil)

/-- An action environment whose actions all resolve promptly with `null`
and touch nothing. -/
def envOk : ActionEnv := fun _ _ => .ok .jsNull none

/-- The action environment of the failure scenario: action 0 resolves
after committing `{passed: 1}` through the component's `set`, action 1
rejects, every other action resolves. -/
def envFailSecond : ActionEnv := fun i _ =>
  if i = 1 then .fail
  else if i = 0 then .ok .jsNull (some (.obj (.cons "passed" (.num 1) .nil)))
  else .ok .jsNull none

/-- `set` with fuel 10 as a total function, for restating `setFn` results
inside closed statements; the error branch returns the state unchanged
and is unreachable in every use below. -/
def setOr (st : SchedState) (props : JsVal) : SchedState :=
  match setFn 10 st props with
  | .ok st' => st'
  | .error _ => st

/-! ## General lemmas about the scheduler -/

theorem emitNow_succ_eq (f : Nat) (n : String) (st : SchedState) :
    emitNow (f + 1) n st
      = (handlersFor st.comp.subs n).foldl (handlerStep f)
          { st with trace := st.trace ++ [Ev.emit n] } := rfl

theorem foldl_comp_invariant {α : Type} (g : SchedState → α → SchedState)
    (hg : ∀ st a, (g st a).comp = st.comp) :
    ∀ (xs : List α) (st : SchedState), (xs.foldl g st).comp = st.comp := by
  intro xs
  induction xs with
  | nil => intro st; rfl
  | cons x xs ih => intro st; rw [List.foldl_cons, ih, hg]

theorem foldl_trace_ext {α : Type} (g : SchedState → α → SchedState)
    (hg : ∀ st a, ∃ t, (g st a).trace = st.trace ++ t) :
    ∀ (xs : List α) (st : SchedState), ∃ t, (xs.foldl g st).trace = st.trace ++ t := by
  intro xs
  induction xs with
  | nil => intro st; exact ⟨[], by simp⟩
  | cons x xs ih =>
    intro st
    obtain ⟨t1, h1⟩ := hg st x
    obtain ⟨t2, h2⟩ := ih (g st x)
    exact ⟨t1 ++ t2, by rw [List.foldl_cons, h2, h1, List.append_assoc]⟩

theorem emitNow_comp : ∀ (f : Nat) (n : String) (st : SchedState),
    (emitNow f n st).comp = st.comp := by
  intro f
  induction f with
  | zero => intro n st; rfl
  | succ f ih =>
    intro n st
    have hstep : ∀ (st' : SchedState) (h : Handler),
        (handlerStep f st' h).comp = st'.comp := by
      intro st' h
      unfold handlerStep
      cases hT : handlerTask h with
      | none =>
          simp only [hT]
          exact foldl_comp_invariant _ (fun s m => ih m s) _ _
      | some t =>
          simp only [hT]
          exact foldl_comp_invariant _ (fun s m => ih m s) _ _
    rw [emitNow_succ_eq]
    exact foldl_comp_invariant _ hstep _ _

theorem emitNow_trace_ext : ∀ (f : Nat) (n : String) (st : SchedState),
    ∃ t, (emitNow f n st).trace = st.trace ++ t := by
  intro f
  induction f with
  | zero => intro n st; exact ⟨[], (List.append_nil st.trace).symm⟩
  | succ f ih =>
    intro n st
    have hstep : ∀ (st' : SchedState) (h : Handler),
        ∃ t, (handlerStep f st' h).trace = st'.trace ++ t := by
      intro st' h
      unfold handlerStep
      cases hT : handlerTask h with
      | none =>
          simp only [hT]
          exact foldl_trace_ext _ (fun s m => ih m s) _ _
      | some t =>
          simp only [hT]
          exact foldl_trace_ext _ (fun s m => ih m s) _ _
    rw [emitNow_succ_eq]
    obtain ⟨t, ht⟩ := foldl_trace_ext _ hstep (handlersFor st.comp.subs n) _
    exact ⟨Ev.emit n :: t, by rw [ht]; simp⟩

theorem handlerStep_trace_ext (f : Nat) (st : SchedState) (h : Handler) :
    ∃ t, (handlerStep f st h).trace = st.trace ++ t := by
  unfold handlerStep
  cases hT : handlerTask h with
  | none =>
      simp only [hT]
      exact foldl_trace_ext _ (fun s m => emitNow_trace_ext f m s) _ _
  | some t =>
      simp only [hT]
      exact foldl_trace_ext _ (fun s m => emitNow_trace_ext f m s) _ _

theorem emitNow_succ_trace (f : Nat) (n : String) (st : SchedState) :
    ∃ t, (emitNow (f + 1) n st).trace = st.trace ++ Ev.emit n :: t := by
  rw [emitNow_succ_eq]
  obtain ⟨t, ht⟩ :=
    foldl_trace_ext (handlerStep f) (fun s h => handlerStep_trace_ext f s h)
      (handlersFor st.comp.subs n) _
  exact ⟨t, by rw [ht]; simp⟩

theorem emitChange_comp (f : Nat) (n : String) (st : SchedState) :
    (emitChange f n st).comp = st.comp := by
  unfold emitChange
  rw [emitNow_comp, emitNow_comp]

theorem emitChange_succ_trace (f : Nat) (n : String) (st : SchedState) :
    ∃ t, (emitChange (f + 1) n st).trace = st.trace ++ Ev.emit n :: t := by
  unfold emitChange
  obtain ⟨t1, h1⟩ := emitNow_succ_trace f n st
  obtain ⟨t2, h2⟩ := emitNow_trace_ext (f + 1) "$change" (emitNow (f + 1) n st)
  exact ⟨t1 ++ t2, by rw [h2, h1]; simp⟩

theorem handlerStep_sync (f : Nat) (st : SchedState) (h : Handler)
    (he : handlerEmits h = []) :
    (handlerStep f st h).trace = st.trace ∧ (handlerStep f st h).comp = st.comp := by
  unfold handlerStep
  rw [he]
  cases hT : handlerTask h with
  | none => simp only [hT]; exact ⟨rfl, rfl⟩
  | some t => simp only [hT]; exact ⟨rfl, rfl⟩

theorem foldl_handlerStep_sync (f : Nat) :
    ∀ (hs : List Handler) (st : SchedState), (∀ hd ∈ hs, handlerEmits hd = []) →
      (hs.foldl (handlerStep f) st).trace = st.trace ∧
      (hs.foldl (handlerStep f) st).comp = st.comp := by
  intro hs
  induction hs with
  | nil => intro st _; exact ⟨rfl, rfl⟩
  | cons hd tl ih =>
    intro st hall
    have h1 := handlerStep_sync f st hd (hall hd (List.mem_cons_self hd tl))
    have h2 := ih (handlerStep f st hd) (fun x hx => hall x (List.mem_cons_of_mem hd hx))
    rw [List.foldl_cons]
    exact ⟨h2.1.trans h1.1, h2.2.trans h1.2⟩

theorem emitNow_sync_none (f : Nat) (n : String) (st : SchedState)
    (h : ∀ hd ∈ handlersFor st.comp.subs n, handlerEmits hd = []) :
    (emitNow (f + 1) n st).trace = st.trace ++ [Ev.emit n] ∧
    (emitNow (f + 1) n st).comp = st.comp := by
  rw [emitNow_succ_eq]
  have hres := foldl_handlerStep_sync f (handlersFor st.comp.subs n)
      { st with trace := st.trace ++ [Ev.emit n] } h
  exact ⟨hres.1, hres.2⟩

/-! ## Lemmas about the field store -/

theorem fieldGet_fieldSet_same (ps : Fields) (k : String) (v : JsVal) :
    fieldGet (fieldSet ps k v) k = v := by
  induction ps with
  | nil => simp [fieldSet, fieldGet]
  | cons p ps ih =>
    obtain ⟨a, b⟩ := p
    by_cases h : a = k
    · simp [fieldSet, fieldGet, h]
    · simp [fieldSet, fieldGet, h, ih]

theorem fieldGet_fieldSet_ne (ps : Fields) (k k' : String) (v : JsVal)
    (h : k ≠ k') : fieldGet (fieldSet ps k v) k' = fieldGet ps k' := by
  induction ps with
  | nil => simp [fieldSet, fieldGet, h]
  | cons p ps ih =>
    obtain ⟨a, b⟩ := p
    by_cases h1 : a = k
    · subst h1
      simp [fieldSet, fieldGet, h]
    · simp only [fieldSet, if_neg h1, fieldGet]
      by_cases h2 : a = k'
      · simp [h2]
      · simp [h2, ih]

theorem mem_fieldSet (ps : Fields) (k : String) (v : JsVal) :
    ∀ p ∈ fieldSet ps k v, p ∈ ps ∨ p = (k, v) := by
  induction ps with
  | nil =>
    intro p hp
    simp only [fieldSet, List.mem_singleton] at hp
    exact Or.inr hp
  | cons q ps ih =>
    obtain ⟨a, b⟩ := q
    intro p hp
    by_cases h : a = k
    · simp only [fieldSet] at hp
      rw [if_pos h] at hp
      rcases List.mem_cons.mp hp with h1 | h1
      · exact Or.inr (by rw [h1, h])
      · exact Or.inl (List.mem_cons_of_mem _ h1)
    · simp only [fieldSet] at hp
      rw [if_neg h] at hp
      rcases List.mem_cons.mp hp with h1 | h1
      · exact Or.inl (by rw [h1]; exact List.mem_cons_self _ _)
      · rcases ih p h1 with h2 | h2
        · exact Or.inl (List.mem_cons_of_mem _ h2)
        · exact Or.inr h2

/-! ## Lemmas about the generic setter -/

theorem _setNow_noop (f : Nat) (st : SchedState) (n : String) (v : JsVal)
    (hc : ¬(fieldGet st.comp.props ("_" ++ n) ≠ v ∧
        (fieldGet st.comp.props ("_" ++ n) ≠ .undefined ∨ v ≠ .jsNull))) :
    _setNow f st n v = st := by
  unfold _setNow _setP
  rw [if_neg hc]
  rfl

theorem _setNow_emit (f : Nat) (st : SchedState) (n : String) (v : JsVal)
    (hc : fieldGet st.comp.props ("_" ++ n) ≠ v ∧
        (fieldGet st.comp.props ("_" ++ n) ≠ .undefined ∨ v ≠ .jsNull)) :
    _setNow f st n v
      = emitChange f n
          { st with comp := { st.comp with
              props := fieldSet st.comp.props ("_" ++ n) v } } := by
  unfold _setNow _setP
  rw [if_pos hc]
  rfl

theorem _setNow_props (f : Nat) (st : SchedState) (n : String) (v : JsVal) :
    (_setNow f st n v).comp.props = st.comp.props ∨
    (_setNow f st n v).comp.props = fieldSet st.comp.props ("_" ++ n) v := by
  by_cases hc : fieldGet st.comp.props ("_" ++ n) ≠ v ∧
      (fieldGet st.comp.props ("_" ++ n) ≠ .undefined ∨ v ≠ .jsNull)
  · right
    rw [_setNow_emit f st n v hc, emitChange_comp]
  · left
    rw [_setNow_noop f st n v hc]

theorem _setNow_subs (f : Nat) (st : SchedState) (n : String) (v : JsVal) :
    (_setNow f st n v).comp.subs = st.comp.subs := by
  by_cases hc : fieldGet st.comp.props ("_" ++ n) ≠ v ∧
      (fieldGet st.comp.props ("_" ++ n) ≠ .undefined ∨ v ≠ .jsNull)
  · rw [_setNow_emit f st n v hc, emitChange_comp]
  · rw [_setNow_noop f st n v hc]

theorem _setNow_fieldGet_ne (f : Nat) (st : SchedState) (n : String)
    (v : JsVal) (k : String) (h : k ≠ "_" ++ n) :
    fieldGet (_setNow f st n v).comp.props k = fieldGet st.comp.props k := by
  rcases _setNow_props f st n v with h1 | h1
  · rw [h1]
  · rw [h1, fieldGet_fieldSet_ne _ _ _ _ (fun e => h e.symm)]

theorem _pushNow_props (f : Nat) (st : SchedState) (n : String) (v : JsVal) :
    (_pushNow f st n v).comp.props
      = fieldSet st.comp.props ("_" ++ n)
          (pushVal (fieldGet st.comp.props ("_" ++ n)) v) := by
  have hgen : fieldGet st.comp.props ("_" ++ n) ≠ .arr (.cons v .nil) →
      (_setNow f st n (.arr (.cons v .nil))).comp.props
        = fieldSet st.comp.props ("_" ++ n) (.arr (.cons v .nil)) := by
    intro hne
    rw [_setNow_emit f st n _ ⟨hne, Or.inr (by simp)⟩, emitChange_comp]
  cases hcur : fieldGet st.comp.props ("_" ++ n) with
  | arr xs => simp [_pushNow, _get, hcur, pushVal]
  | undefined =>
      simp only [_pushNow, _get, hcur, pushVal]
      exact hgen (by rw [hcur]; simp)
  | jsNull =>
      simp only [_pushNow, _get, hcur, pushVal]
      rw [if_neg (by simp)]
      exact hgen (by rw [hcur]; simp)
  | bool b =>
      simp only [_pushNow, _get, hcur, pushVal]
      rw [if_neg (by simp)]
      exact hgen (by rw [hcur]; simp)
  | num m =>
      simp only [_pushNow, _get, hcur, pushVal]
      rw [if_neg (by simp)]
      exact hgen (by rw [hcur]; simp)
  | str s =>
      simp only [_pushNow, _get, hcur, pushVal]
      rw [if_neg (by simp)]
      exact hgen (by rw [hcur]; simp)
  | obj fs =>
      simp only [_pushNow, _get, hcur, pushVal]
      rw [if_neg (by simp)]
      exact hgen (by rw [hcur]; simp)
  | listenerVal e a =>
      simp only [_pushNow, _get, hcur, pushVal]
      rw [if_neg (by simp)]
      exact hgen (by rw [hcur]; simp)

theorem _pushNow_fieldGet_ne (f : Nat) (st : SchedState) (n : String)
    (v : JsVal) (k : String) (h : k ≠ "_" ++ n) :
    fieldGet (_pushNow f st n v).comp.props k = fieldGet st.comp.props k := by
  rw [_pushNow_props, fieldGet_fieldSet_ne _ _ _ _ (fun e => h e.symm)]

theorem _setIfUndefinedProp_fieldGet (f : Nat) (st : SchedState) (props : JsVal)
    (name : String) (st' : SchedState) (k : String)
    (hr : _setIfUndefinedProp f st props name = .ok st') (h : k ≠ "_" ++ name) :
    fieldGet st'.comp.props k = fieldGet st.comp.props k := by
  simp only [_setIfUndefinedProp] at hr
  cases hj : jsIndex props name with
  | error e =>
      rw [hj] at hr
      simp only at hr
      cases hr
  | ok v =>
      rw [hj] at hr
      simp only at hr
      cases hr
      by_cases hv : v = .undefined
      · rw [if_pos hv]
      · rw [if_neg hv]
        exact _setNow_fieldGet_ne f st name v k h

theorem _setListenersFn_fieldGet (f : Nat) (st : SchedState) (props : JsVal)
    (st' : SchedState) (k : String)
    (hr : _setListenersFn f st props = .ok st') (h : k ≠ "_listeners") :
    fieldGet st'.comp.props k = fieldGet st.comp.props k := by
  have h2 : k ≠ "_" ++ "listeners" := fun e => h (e.trans rfl)
  simp only [_setListenersFn] at hr
  cases hj : jsIndex props "listeners" with
  | error e =>
      rw [hj] at hr
      simp only at hr
      cases hr
  | ok ls =>
      rw [hj] at hr
      simp only at hr
      by_cases hu : ls = .undefined
      · rw [if_pos hu] at hr
        cases hr
        rfl
      · rw [if_neg hu] at hr
        cases hp : jsIndex props "passed" with
        | error e =>
            rw [hp] at hr
            simp only at hr
            cases hr
        | ok ifData =>
            rw [hp] at hr
            simp only at hr
            cases ls with
            | undefined => exact absurd rfl hu
            | arr items =>
                cases hr
                exact _setNow_fieldGet_ne f _ "listeners" (.arr items) k h2
            | jsNull => cases hr
            | bool b => cases hr
            | num m => cases hr
            | str s => cases hr
            | obj fs => cases hr
            | listenerVal e a => cases hr

theorem setFn_fieldGet (f : Nat) (st : SchedState) (props : JsVal)
    (st' : SchedState) (k : String)
    (hr : setFn f st props = .ok st')
    (h1 : k ≠ "_name") (h2 : k ≠ "_listeners") (h3 : k ≠ "_passed")
    (h4 : k ≠ "_schema") :
    fieldGet st'.comp.props k = fieldGet st.comp.props k := by
  simp only [setFn] at hr
  by_cases hg : typeofIsObject props = false
  · rw [if_pos hg] at hr
    cases hr
  · rw [if_neg hg] at hr
    cases ha : _setName f st props with
    | error e =>
        rw [ha] at hr
        simp only at hr
        cases hr
    | ok stA =>
      rw [ha] at hr
      simp only at hr
      cases hb : _setListenersFn f stA props with
      | error e =>
          rw [hb] at hr
          simp only at hr
          cases hr
      | ok stB =>
        rw [hb] at hr
        simp only at hr
        cases hc : _setPassed f stB props with
        | error e =>
            rw [hc] at hr
            simp only at hr
            cases hr
        | ok stC =>
          rw [hc] at hr
          simp only at hr
          cases hd : jsIndex props "schema" with
          | error e =>
              rw [hd] at hr
              simp only at hr
              cases hr
          | ok v =>
            rw [hd] at hr
            simp only at hr
            cases hr
            have k1 : fieldGet stA.comp.props k = fieldGet st.comp.props k :=
              _setIfUndefinedProp_fieldGet f st props "name" stA k ha
                (fun e => h1 (e.trans rfl))
            have k2 : fieldGet stB.comp.props k = fieldGet stA.comp.props k :=
              _setListenersFn_fieldGet f stA props stB k hb h2
            have k3 : fieldGet stC.comp.props k = fieldGet stB.comp.props k :=
              _setIfUndefinedProp_fieldGet f stB props "passed" stC k hc
                (fun e => h3 (e.trans rfl))
            by_cases hv : v = .undefined
            · rw [if_pos hv, k3, k2, k1]
            · rw [if_neg hv,
                _pushNow_fieldGet_ne f stC "schema" v k (fun e => h4 (e.trans rfl)),
                k3, k2, k1]

theorem construct_steps (f : Nat) (props : JsVal) (w : Nat)
    (st1 st2 st3 : SchedState)
    (h0 : (if truthy props then _setName f ⟨⟨[], []⟩, [], []⟩ props
            else .ok ⟨⟨[], []⟩, [], []⟩) = .ok st1)
    (h2 : setFn f st1 (.obj (.cons "schema" componentMSONSchema .nil)) = .ok st2)
    (h3 : setFn f st2 (if props = .undefined then .obj .nil else props) = .ok st3) :
    construct f props w = .ok
      ({ emitChange f "create" st3 with comp := { (emitChange f "create" st3).comp with
          props := fieldSet (emitChange f "create" st3).comp.props "_key" (.num w) } },
        w + 1) := by
  simp only [construct, getNextKey]
  rw [h0]
  simp only
  rw [h2]
  simp only
  rw [h3]

theorem construct_pipeline (f : Nat) (props : JsVal) (w : Nat) (st' : SchedState)
    (w' : Nat) (hr : construct f props w = .ok (st', w')) :
    ∃ st1 st2 st3 : SchedState,
      (if truthy props then _setName f ⟨⟨[], []⟩, [], []⟩ props
          else .ok ⟨⟨[], []⟩, [], []⟩) = .ok st1 ∧
      setFn f st1 (.obj (.cons "schema" componentMSONSchema .nil)) = .ok st2 ∧
      setFn f st2 (if props = .undefined then .obj .nil else props) = .ok st3 ∧
      st' = { emitChange f "create" st3 with comp := { (emitChange f "create" st3).comp with
          props := fieldSet (emitChange f "create" st3).comp.props "_key" (.num w) } } ∧
      w' = w + 1 := by
  simp only [construct, getNextKey] at hr
  cases h0 : (if truthy props then _setName f (⟨⟨[], []⟩, [], []⟩ : SchedState) props
      else .ok ⟨⟨[], []⟩, [], []⟩) with
  | error e =>
      rw [h0] at hr
      simp only at hr
      cases hr
  | ok st1 =>
      rw [h0] at hr
      simp only at hr
      cases h2 : setFn f st1 (.obj (.cons "schema" componentMSONSchema .nil)) with
      | error e =>
          rw [h2] at hr
          simp only at hr
          cases hr
      | ok st2 =>
          rw [h2] at hr
          simp only at hr
          cases h3 : setFn f st2 (if props = .undefined then .obj .nil else props) with
          | error e =>
              rw [h3] at hr
              simp only at hr
              cases hr
          | ok st3 =>
              rw [h3] at hr
              simp only at hr
              injection hr with hpair
              injection hpair with h4 h5
              exact ⟨st1, st2, st3, rfl, h2, h3, h4.symm, h5.symm⟩

theorem construct_key (f : Nat) (props : JsVal) (w : Nat) (st' : SchedState)
    (w' : Nat) (hr : construct f props w = .ok (st', w')) :
    getKey st'.comp = .num w ∧ w' = w + 1 := by
  obtain ⟨st1, st2, st3, h0, h2, h3, h4, h5⟩ := construct_pipeline f props w st' w' hr
  subst h4
  exact ⟨by simp [getKey, fieldGet_fieldSet_same], h5⟩

/-! ## Lemmas about the wiring -/

theorem handlersFor_append (a b : List (String × Handler)) (ev : String) :
    handlersFor (a ++ b) ev = handlersFor a ev ++ handlersFor b ev := by
  simp [handlersFor, List.filter_append]

theorem handlersFor_all_ne (ev : String) :
    ∀ (subs : List (String × Handler)), (∀ p ∈ subs, p.1 ≠ ev) →
      handlersFor subs ev = [] := by
  intro subs
  induction subs with
  | nil => intro _; rfl
  | cons q qs ih =>
    intro h
    obtain ⟨e, hd⟩ := q
    have he : e ≠ ev := h (e, hd) (List.mem_cons_self _ _)
    have ih2 := ih (fun p hp => h p (List.mem_cons_of_mem _ hp))
    simp only [handlersFor, List.filter_cons] at ih2 ⊢
    rw [if_neg (by simp [he])]
    exact ih2

theorem handlersFor_mem (subs : List (String × Handler)) (ev : String) :
    ∀ hd ∈ handlersFor subs ev, (ev, hd) ∈ subs := by
  intro hd hmem
  simp only [handlersFor, List.mem_map] at hmem
  obtain ⟨q, hq, he⟩ := hmem
  have h1 : q.1 = ev := by simpa using List.of_mem_filter hq
  have h2 : q ∈ subs := List.mem_of_mem_filter hq
  rw [← he, ← h1]
  exact h2

theorem chainsOf_keys (d : JsVal) :
    ∀ (ls : List (String × List Nat)) (q : String × Handler),
      q ∈ chainsOf d (JsArr.ofList (ls.map (fun p => JsVal.listenerVal p.1 p.2))) →
      ∃ p ∈ ls, q = (p.1, Handler.chain p.1 p.2 d) := by
  intro ls
  induction ls with
  | nil => intro q hq; cases hq
  | cons p ps ih =>
    intro q hq
    obtain ⟨e, acts⟩ := p
    simp only [List.map_cons, JsArr.ofList, chainsOf, List.mem_cons] at hq
    rcases hq with h1 | h1
    · exact ⟨(e, acts), List.mem_cons_self _ _, h1⟩
    · obtain ⟨p2, hp2, hq2⟩ := ih q h1
      exact ⟨p2, List.mem_cons_of_mem _ hp2, hq2⟩

theorem handlerEmits_chain_ne (ev : String) (acts : List Nat) (d : JsVal)
    (h1 : ev ≠ "create") (h2 : ev ≠ "load") :
    handlerEmits (.chain ev acts d) = [] := by
  cases acts with
  | nil => simp [handlerEmits, h1, h2]
  | cons a as => simp [handlerEmits]

theorem built_mkListeners_subs (ls : List (String × List Nat)) :
    (built (mkListeners ls)).comp.subs
      = chainsOf .undefined (JsArr.ofList (ls.map (fun p => JsVal.listenerVal p.1 p.2)))
          ++ [("create", Handler.emitCreated), ("load", Handler.emitLoaded)] := by
  have h0 : (if truthy (mkListeners ls) then
        _setName 10 (⟨⟨[], []⟩, [], []⟩ : SchedState) (mkListeners ls)
        else .ok ⟨⟨[], []⟩, [], []⟩) = .ok (⟨⟨[], []⟩, [], []⟩ : SchedState) := rfl
  have h2 : setFn 10 (⟨⟨[], []⟩, [], []⟩ : SchedState)
      (.obj (.cons "schema" componentMSONSchema .nil))
      = .ok ⟨⟨[("_schema", .arr (.cons componentMSONSchema .nil))],
          [("create", Handler.emitCreated), ("load", Handler.emitLoaded)]⟩, [],
          [Ev.emit "schema", Ev.emit "$change"]⟩ := rfl
  have h3 : setFn 10 (⟨⟨[("_schema", .arr (.cons componentMSONSchema .nil))],
        [("create", Handler.emitCreated), ("load", Handler.emitLoaded)]⟩, [],
        [Ev.emit "schema", Ev.emit "$change"]⟩ : SchedState) (mkListeners ls)
      = .ok ⟨⟨[("_schema", .arr (.cons componentMSONSchema .nil)),
            ("_listeners", .arr (JsArr.ofList (ls.map (fun p => JsVal.listenerVal p.1 p.2))))],
          (chainsOf .undefined (JsArr.ofList (ls.map (fun p => JsVal.listenerVal p.1 p.2)))
              ++ [("create", Handler.emitCreated)]) ++ [("load", Handler.emitLoaded)]⟩,
          [], [Ev.emit "schema", Ev.emit "$change", Ev.emit "listeners",
            Ev.emit "$change"]⟩ := rfl
  have hc := construct_steps 10 (mkListeners ls) 0 _ _ _ h0 h2 h3
  simp only [built]
  rw [hc]
  simp only
  rw [emitChange_comp]
  simp [List.append_assoc]

theorem emitNow_single_default (f : Nat) (n : String) (st : SchedState)
    (h : handlersFor st.comp.subs n = [Handler.emitCreated]) :
    emitNow (f + 1) n st
      = emitNow f "$change" (emitNow f "created"
          { st with trace := st.trace ++ [Ev.emit n] }) := by
  rw [emitNow_succ_eq, h]
  rfl

theorem emitChange_create_sole_default (f : Nat) (st : SchedState)
    (h1 : handlersFor st.comp.subs "create" = [Handler.emitCreated])
    (h2 : ∀ hd ∈ handlersFor st.comp.subs "created", handlerEmits hd = [])
    (h3 : ∀ hd ∈ handlersFor st.comp.subs "$change", handlerEmits hd = []) :
    (emitChange (f + 2) "create" st).trace
      = st.trace ++ [Ev.emit "create", Ev.emit "created", Ev.emit "$change",
          Ev.emit "$change"] ∧
    (emitChange (f + 2) "create" st).comp = st.comp := by
  unfold emitChange
  rw [show (f + 2) = (f + 1) + 1 from rfl,
    emitNow_single_default (f + 1) "create" st h1]
  have s1 := emitNow_sync_none f "created"
      { st with trace := st.trace ++ [Ev.emit "create"] } h2
  have s2 := emitNow_sync_none f "$change"
      (emitNow (f + 1) "created" { st with trace := st.trace ++ [Ev.emit "create"] })
      (by rw [s1.2]; exact h3)
  have s3 := emitNow_sync_none (f + 1) "$change"
      (emitNow (f + 1) "$change" (emitNow (f + 1) "created"
        { st with trace := st.trace ++ [Ev.emit "create"] }))
      (by rw [s2.2, s1.2]; exact h3)
  constructor
  · rw [s3.1, s2.1, s1.1]
    simp
  · rw [s3.2, s2.2, s1.2]

/-! ## Claim theorems -/

theorem emitNow_single_default_loaded (f : Nat) (n : String) (st : SchedState)
    (h : handlersFor st.comp.subs n = [Handler.emitLoaded]) :
    emitNow (f + 1) n st
      = emitNow f "$change" (emitNow f "loaded"
          { st with trace := st.trace ++ [Ev.emit n] }) := by
  rw [emitNow_succ_eq, h]
  rfl

theorem emitChange_load_sole_default (f : Nat) (st : SchedState)
    (h1 : handlersFor st.comp.subs "load" = [Handler.emitLoaded])
    (h2 : ∀ hd ∈ handlersFor st.comp.subs "loaded", handlerEmits hd = [])
    (h3 : ∀ hd ∈ handlersFor st.comp.subs "$change", handlerEmits hd = []) :
    (emitChange (f + 2) "load" st).trace
      = st.trace ++ [Ev.emit "load", Ev.emit "loaded", Ev.emit "$change",
          Ev.emit "$change"] ∧
    (emitChange (f + 2) "load" st).comp = st.comp := by
  unfold emitChange
  rw [show (f + 2) = (f + 1) + 1 from rfl,
    emitNow_single_default_loaded (f + 1) "load" st h1]
  have s1 := emitNow_sync_none f "loaded"
      { st with trace := st.trace ++ [Ev.emit "load"] } h2
  have s2 := emitNow_sync_none f "$change"
      (emitNow (f + 1) "loaded" { st with trace := st.trace ++ [Ev.emit "load"] })
      (by rw [s1.2]; exact h3)
  have s3 := emitNow_sync_none (f + 1) "$change"
      (emitNow (f + 1) "$change" (emitNow (f + 1) "loaded"
        { st with trace := st.trace ++ [Ev.emit "load"] }))
      (by rw [s2.2, s1.2]; exact h3)
  constructor
  · rw [s3.1, s2.1, s1.1]
    simp
  · rw [s3.2, s2.2, s1.2]

/-- C9: for a component constructed with declared listeners, when none of
them names the event `create` (respectively `load`), the wiring leaves
exactly the default pass-through `_emitCreatedFactory` (respectively
`_emitLoadedFactory`) subscribed on that event; firing `create`
(respectively `load`, through the public `emitLoad` trigger) therefore
emits `created` (respectively `loaded`) synchronously and immediately —
the trace of the synchronous emission phase is exactly the base event,
its milestone and the two `$change` aggregates, produced before any
queued chain task runs. -/
theorem default_created_pass_through (ls : List (String × List Nat)) :
    ((∀ p ∈ ls, p.1 ≠ "create") →
      handlersFor (built (mkListeners ls)).comp.subs "create"
          = [Handler.emitCreated] ∧
      (emitChange 6 "create" (built (mkListeners ls))).trace
        = (built (mkListeners ls)).trace
            ++ [Ev.emit "create", Ev.emit "created", Ev.emit "$change",
              Ev.emit "$change"]) ∧
    ((∀ p ∈ ls, p.1 ≠ "load") →
      handlersFor (built (mkListeners ls)).comp.subs "load"
          = [Handler.emitLoaded] ∧
      (emitLoad 6 (built (mkListeners ls))).trace
        = (built (mkListeners ls)).trace
            ++ [Ev.emit "load", Ev.emit "loaded", Ev.emit "$change",
              Ev.emit "$change"]) := by
  have hsubs := built_mkListeners_subs ls
  have hother : ∀ ev : String, ev ≠ "create" → ev ≠ "load" →
      ∀ hd ∈ handlersFor (built (mkListeners ls)).comp.subs ev,
        handlerEmits hd = [] := by
    intro ev hev1 hev2 hd hmem
    have hmem2 := handlersFor_mem _ ev hd hmem
    rw [hsubs] at hmem2
    rcases List.mem_append.mp hmem2 with hm | hm
    · obtain ⟨p2, hp2, he⟩ := chainsOf_keys .undefined ls (ev, hd) hm
      have e1 : ev = p2.1 := congrArg Prod.fst he
      have e2 : hd = Handler.chain p2.1 p2.2 .undefined := congrArg Prod.snd he
      rw [e2, ← e1]
      exact handlerEmits_chain_ne ev p2.2 .undefined hev1 hev2
    · rcases List.mem_cons.mp hm with hm1 | hm1
      · exact absurd (congrArg Prod.fst hm1) hev1
      · rcases List.mem_cons.mp hm1 with hm2 | hm2
        · exact absurd (congrArg Prod.fst hm2) hev2
        · cases hm2
  constructor
  · intro h
    have hne : ∀ p ∈ chainsOf JsVal.undefined
        (JsArr.ofList (ls.map (fun p => JsVal.listenerVal p.1 p.2))),
        p.1 ≠ "create" := by
      intro p hp
      obtain ⟨p2, hp2, he⟩ := chainsOf_keys .undefined ls p hp
      rw [he]
      exact h p2 hp2
    have hA : handlersFor (built (mkListeners ls)).comp.subs "create"
        = [Handler.emitCreated] := by
      rw [hsubs, handlersFor_append, handlersFor_all_ne "create" _ hne]
      rfl
    have hB := hother "created" (by decide) (by decide)
    have hC := hother "$change" (by decide) (by decide)
    exact ⟨hA, (emitChange_create_sole_default 4 (built (mkListeners ls)) hA hB hC).1⟩
  · intro h
    have hne : ∀ p ∈ chainsOf JsVal.undefined
        (JsArr.ofList (ls.map (fun p => JsVal.listenerVal p.1 p.2))),
        p.1 ≠ "load" := by
      intro p hp
      obtain ⟨p2, hp2, he⟩ := chainsOf_keys .undefined ls p hp
      rw [he]
      exact h p2 hp2
    have hA : handlersFor (built (mkListeners ls)).comp.subs "load"
        = [Handler.emitLoaded] := by
      rw [hsubs, handlersFor_append, handlersFor_all_ne "load" _ hne]
      rfl
    have hB := hother "loaded" (by decide) (by decide)
    have hC := hother "$change" (by decide) (by decide)
    exact ⟨hA, (emitChange_load_sole_default 4 (built (mkListeners ls)) hA hB hC).1⟩

/-- Witness for `default_created_pass_through` at the one-listener input
`{listeners: [{event: 'click', actions: [a0]}]}`, which declares neither
`create` nor `load`: both milestone halves hold there. -/
theorem default_created_pass_through_witness :
    (handlersFor (built (mkListeners [("click", [0])])).comp.subs "create"
        = [Handler.emitCreated] ∧
      (emitChange 6 "create" (built (mkListeners [("click", [0])]))).trace
        = (built (mkListeners [("click", [0])])).trace
            ++ [Ev.emit "create", Ev.emit "created", Ev.emit "$change",
              Ev.emit "$change"]) ∧
    (handlersFor (built (mkListeners [("click", [0])])).comp.subs "load"
        = [Handler.emitLoaded] ∧
      (emitLoad 6 (built (mkListeners [("click", [0])]))).trace
        = (built (mkListeners [("click", [0])])).trace
            ++ [Ev.emit "load", Ev.emit "loaded", Ev.emit "$change",
              Ev.emit "$change"]) :=
  ⟨(default_created_pass_through [("click", [0])]).1 (by decide),
    (default_created_pass_through [("click", [0])]).2 (by decide)⟩

theorem setFn_schema_field (f : Nat) (st : SchedState) (fs : JsObj)
    (st' : SchedState) (hr : setFn f st (.obj fs) = .ok st') :
    (fs.get "schema" = .undefined ∧
        fieldGet st'.comp.props "_schema" = fieldGet st.comp.props "_schema") ∨
    (fs.get "schema" ≠ .undefined ∧
        fieldGet st'.comp.props "_schema"
          = pushVal (fieldGet st.comp.props "_schema") (fs.get "schema")) := by
  simp only [setFn] at hr
  rw [if_neg (by simp [typeofIsObject])] at hr
  cases ha : _setName f st (.obj fs) with
  | error e =>
      rw [ha] at hr
      simp only at hr
      cases hr
  | ok stA =>
    rw [ha] at hr
    simp only at hr
    cases hb : _setListenersFn f stA (.obj fs) with
    | error e =>
        rw [hb] at hr
        simp only at hr
        cases hr
    | ok stB =>
      rw [hb] at hr
      simp only at hr
      cases hc : _setPassed f stB (.obj fs) with
      | error e =>
          rw [hc] at hr
          simp only at hr
          cases hr
      | ok stC =>
        rw [hc] at hr
        simp only at hr
        have hd : jsIndex (.obj fs) "schema" = .ok (fs.get "schema") := rfl
        rw [hd] at hr
        simp only at hr
        have k1 : fieldGet stA.comp.props "_schema" = fieldGet st.comp.props "_schema" :=
          _setIfUndefinedProp_fieldGet f st _ "name" stA _ ha (by decide)
        have k2 : fieldGet stB.comp.props "_schema" = fieldGet stA.comp.props "_schema" :=
          _setListenersFn_fieldGet f stA _ stB "_schema" hb (by decide)
        have k3 : fieldGet stC.comp.props "_schema" = fieldGet stB.comp.props "_schema" :=
          _setIfUndefinedProp_fieldGet f stB _ "passed" stC _ hc (by decide)
        by_cases hv : fs.get "schema" = .undefined
        · rw [if_pos hv] at hr
          cases hr
          exact Or.inl ⟨hv, by rw [k3, k2, k1]⟩
        · rw [if_neg hv] at hr
          cases hr
          refine Or.inr ⟨hv, ?_⟩
          rw [_pushNow_props]
          have e1 : ("_" ++ "schema" : String) = "_schema" := rfl
          rw [e1, fieldGet_fieldSet_same, k3, k2, k1]

theorem getOne_schema (props : Fields) (xs : JsArr)
    (h : fieldGet props "_schema" = .arr xs) :
    getOne props "schema" = .arr xs := by
  have e1 : ("_" ++ "schema" : String) = "_schema" := rfl
  simp only [getOne, _getIfAllowed, _get, e1, h]
  rw [if_pos (by decide)]
  rw [if_neg (by simp)]

/-- C1: the no-op rule of `_set` (component.js lines 78-89). Re-setting a
property to the value it already holds stores nothing and emits nothing;
an `undefined → null` transition is likewise suppressed; a transition
from a defined, non-null value to `null` stores and emits; every other
changed value stores and emits. "Emits" means the specific property event
is recorded first, followed by the `$change` aggregate (via
`_emitChange`). -/
theorem set_noop_rule (f : Nat) (st : SchedState) (name : String)
    (value : JsVal) :
    (fieldGet st.comp.props ("_" ++ name) = value →
      _setNow (f + 1) st name value = st) ∧
    (fieldGet st.comp.props ("_" ++ name) = .undefined → value = .jsNull →
      _setNow (f + 1) st name value = st) ∧
    (fieldGet st.comp.props ("_" ++ name) ≠ .undefined → value = .jsNull →
      fieldGet st.comp.props ("_" ++ name) ≠ .jsNull →
      (_setNow (f + 1) st name value).comp.props
          = fieldSet st.comp.props ("_" ++ name) value ∧
      ∃ t, (_setNow (f + 1) st name value).trace
          = st.trace ++ Ev.emit name :: t) ∧
    (fieldGet st.comp.props ("_" ++ name) ≠ value → value ≠ .jsNull →
      (_setNow (f + 1) st name value).comp.props
          = fieldSet st.comp.props ("_" ++ name) value ∧
      ∃ t, (_setNow (f + 1) st name value).trace
          = st.trace ++ Ev.emit name :: t) := by
  refine ⟨?_, ?_, ?_, ?_⟩
  · intro he
    exact _setNow_noop (f + 1) st name value (by simp [he])
  · intro hu hn
    refine _setNow_noop (f + 1) st name value ?_
    intro hc
    rcases hc.2 with h3 | h3
    · exact h3 hu
    · exact h3 hn
  · intro hu hn hnn
    have hc : fieldGet st.comp.props ("_" ++ name) ≠ value ∧
        (fieldGet st.comp.props ("_" ++ name) ≠ .undefined ∨ value ≠ .jsNull) := by
      refine ⟨?_, Or.inl hu⟩
      rw [hn]
      exact hnn
    refine ⟨?_, ?_⟩
    · rw [_setNow_emit (f + 1) st name value hc, emitChange_comp]
    · rw [_setNow_emit (f + 1) st name value hc]
      exact emitChange_succ_trace f name _
  · intro hne hn
    have hc : fieldGet st.comp.props ("_" ++ name) ≠ value ∧
        (fieldGet st.comp.props ("_" ++ name) ≠ .undefined ∨ value ≠ .jsNull) :=
      ⟨hne, Or.inr hn⟩
    refine ⟨?_, ?_⟩
    · rw [_setNow_emit (f + 1) st name value hc, emitChange_comp]
    · rw [_setNow_emit (f + 1) st name value hc]
      exact emitChange_succ_trace f name _

/-- Witness for `set_noop_rule`, exercising all four branches at concrete
stores. -/
theorem set_noop_rule_witness :
    (_setNow 3 ⟨⟨[("_name", .str "a")], []⟩, [], []⟩ "name" (.str "a")
        = ⟨⟨[("_name", .str "a")], []⟩, [], []⟩) ∧
    (_setNow 3 ⟨⟨[], []⟩, [], []⟩ "passed" .jsNull = ⟨⟨[], []⟩, [], []⟩) ∧
    ((_setNow 3 ⟨⟨[("_passed", .num 1)], []⟩, [], []⟩ "passed" .jsNull).comp.props
        = fieldSet [("_passed", .num 1)] "_passed" .jsNull ∧
      ∃ t, (_setNow 3 ⟨⟨[("_passed", .num 1)], []⟩, [], []⟩ "passed" .jsNull).trace
        = Ev.emit "passed" :: t) ∧
    ((_setNow 3 ⟨⟨[], []⟩, [], []⟩ "name" (.str "b")).comp.props
        = fieldSet [] "_name" (.str "b") ∧
      ∃ t, (_setNow 3 ⟨⟨[], []⟩, [], []⟩ "name" (.str "b")).trace
        = Ev.emit "name" :: t) := by
  refine ⟨?_, ?_, ?_, ?_⟩
  · exact (set_noop_rule 2 _ "name" (.str "a")).1 (by decide)
  · exact (set_noop_rule 2 _ "passed" .jsNull).2.1 (by decide) rfl
  · exact (set_noop_rule 2 _ "passed" .jsNull).2.2.1 (by decide) rfl (by decide)
  · exact (set_noop_rule 2 _ "name" (.str "b")).2.2.2 (by decide) (by decide)

/-- C10: a clone retains the source's identity key rather than receiving
a freshly issued one: `_.cloneDeep` copies the `_key` field by value,
`removeAllListeners` touches only the subscription list, and `clone`
never consults the module counter, so `getKey` agrees on source and
duplicate. -/
theorem clone_retains_key (c : Component) : getKey (clone c) = getKey c := rfl

/-- C5 (amended): constructor-issued identity keys. A construction from
counter state `w` stores `w` as the key (the final step of `construct`,
after property intake and the `create` emission) and advances the counter,
so two components constructed in sequence carry distinct keys; and the
public `set` never changes a stored key. Distinctness is limited to
constructor-issued keys: a clone retains its source's key (see
`clone_reuses_key`). -/
theorem constructor_keys (f : Nat) (p1 p2 : JsVal) (w : Nat)
    (s1 s2 : SchedState) (w1 w2 : Nat)
    (h1 : construct f p1 w = .ok (s1, w1))
    (h2 : construct f p2 w1 = .ok (s2, w2)) :
    getKey s1.comp ≠ getKey s2.comp ∧
    (∀ (st st' : SchedState) (q : JsVal), setFn f st q = .ok st' →
      getKey st'.comp = getKey st.comp) := by
  obtain ⟨k1, e1⟩ := construct_key f p1 w s1 w1 h1
  obtain ⟨k2, e2⟩ := construct_key f p2 w1 s2 w2 h2
  constructor
  · rw [k1, k2, e1]
    intro he
    injection he with hn
    omega
  · intro st st' q hr
    exact setFn_fieldGet f st q st' "_key" hr (by decide) (by decide)
      (by decide) (by decide)

/-- Witness for `constructor_keys`: two components constructed in
sequence from counter 0 carry the distinct keys 0 and 1, and a `set`
call supplying `passed` leaves the key untouched. -/
theorem constructor_keys_witness :
    getKey (built (.obj .nil)).comp
      ≠ getKey (((construct 10 (.obj .nil) 1).toOption.getD
          (⟨⟨[], []⟩, [], []⟩, 0)).1).comp ∧
    getKey (setOr (built (.obj .nil)) (.obj (.cons "passed" (.num 5) .nil))).comp
      = getKey (built (.obj .nil)).comp := by
  have h := constructor_keys 10 (.obj .nil) (.obj .nil) 0 (built (.obj .nil))
      (((construct 10 (.obj .nil) 1).toOption.getD (⟨⟨[], []⟩, [], []⟩, 0)).1)
      1 2 rfl rfl
  exact ⟨h.1, h.2 (built (.obj .nil))
    (setOr (built (.obj .nil)) (.obj (.cons "passed" (.num 5) .nil)))
    (.obj (.cons "passed" (.num 5) .nil)) rfl⟩

/-- Counterexample to C5 as stated: the duplicate returned by `clone` is
a distinct live component (its subscriptions were cleared while the
source keeps its defaults) carrying the very same identity key as its
source, so two distinct live components share a key. -/
theorem clone_reuses_key :
    clone (built (.obj .nil)).comp ≠ (built (.obj .nil)).comp ∧
    getKey (clone (built (.obj .nil)).comp) = getKey (built (.obj .nil)).comp :=
  ⟨by decide, rfl⟩

/-- C2 evaluated at the failing input: a component constructed with two
listeners on `create`, one action each, all actions resolving. Because
`hasOnCreate` is only assigned inside the async handlers, the default
pass-through is installed even though `create` listeners exist, so the
constructor's synchronous `create` emission already records `created`
(sixth trace entry) while neither chain has resolved — both `actionDone`
entries appear only in the later microtask drain, each followed by that
chain's own `created` re-emission. The milestone therefore fires before
either chain completes, against the claim (and against the comment at
component.js lines 141-142). -/
theorem created_before_chains_resolve :
    (built (mkListeners [("create", [0]), ("create", [1])])).trace
      = [Ev.emit "schema", Ev.emit "$change", Ev.emit "listeners",
          Ev.emit "$change", Ev.emit "create", Ev.emit "created",
          Ev.emit "$change", Ev.emit "$change"] ∧
    (runQueue 10 envOk (built (mkListeners [("create", [0]), ("create", [1])]))).trace
      = [Ev.emit "schema", Ev.emit "$change", Ev.emit "listeners",
          Ev.emit "$change", Ev.emit "create", Ev.emit "created",
          Ev.emit "$change", Ev.emit "$change",
          Ev.actionDone 0, Ev.emit "created", Ev.emit "$change",
          Ev.actionDone 1, Ev.emit "created", Ev.emit "$change"] ∧
    Ev.actionDone 0 ∉ (built (mkListeners [("create", [0]), ("create", [1])])).trace ∧
    Ev.actionDone 1 ∉ (built (mkListeners [("create", [0]), ("create", [1])])).trace :=
  ⟨rfl, rfl, by decide, by decide⟩

/-- C3 evaluated at the failing input: one `create` listener with actions
`[0, 1, 2]` under `envFailSecond` (action 0 resolves after committing
`{passed: 1}` through `set`, action 1 rejects). The rejection aborts the
chain — action 2 never runs — and the `passed` state committed before the
failure stands; but the `created` milestone was nevertheless emitted for
this firing, synchronously at `create` time, by the always-installed
default pass-through, against the claim's last clause. -/
theorem action_failure_aborts_chain :
    (runQueue 10 envFailSecond (built (mkListeners [("create", [0, 1, 2])]))).trace
      = [Ev.emit "schema", Ev.emit "$change", Ev.emit "listeners",
          Ev.emit "$change", Ev.emit "create", Ev.emit "created",
          Ev.emit "$change", Ev.emit "$change",
          Ev.emit "passed", Ev.emit "$change", Ev.actionDone 0,
          Ev.actionFailed 1] ∧
    fieldGet (runQueue 10 envFailSecond
        (built (mkListeners [("create", [0, 1, 2])]))).comp.props "_passed"
      = .num 1 ∧
    Ev.actionDone 2
        ∉ (runQueue 10 envFailSecond
            (built (mkListeners [("create", [0, 1, 2])]))).trace ∧
    Ev.emit "created"
        ∈ (runQueue 10 envFailSecond
            (built (mkListeners [("create", [0, 1, 2])]))).trace :=
  ⟨rfl, rfl, by decide, by decide⟩

/-- C4 evaluated at the failing input: `set` called twice with the same
one-listener list `[{event: 'click', actions: [a0]}]`. The second call
removes and re-adds only the default `create`/`load` auto-emitters; the
chain subscribed by the first call is left in place (the TODO at
component.js lines 152-153), so afterwards the binding is subscribed
twice and one `click` firing runs action 0 twice, against the claim's
"subscribed exactly once". -/
theorem relisten_duplicates_subscriptions :
    (setOr (built (mkListeners [("click", [0])]))
        (mkListeners [("click", [0])])).comp.subs
      = [("click", Handler.chain "click" [0] .undefined),
          ("click", Handler.chain "click" [0] .undefined),
          ("create", Handler.emitCreated), ("load", Handler.emitLoaded)] ∧
    (runQueue 10 envOk (emitChange 10 "click"
        (setOr (built (mkListeners [("click", [0])]))
          (mkListeners [("click", [0])])))).trace
      = [Ev.emit "schema", Ev.emit "$change", Ev.emit "listeners",
          Ev.emit "$change", Ev.emit "create", Ev.emit "created",
          Ev.emit "$change", Ev.emit "$change", Ev.emit "click",
          Ev.emit "$change", Ev.actionDone 0, Ev.actionDone 0] :=
  ⟨rfl, rfl⟩

/-- Counterexample to C6 as stated: the no-argument `get()` snapshot of a
freshly constructed component assigns `values[n] = getOne(n)` for the
stripped name of *every* own field, and the assignment creates the key
even when `getOne` returned `undefined`; the snapshot's names are
`schema` and `key`, so the internal `_key` surfaces as the name `key`
(bound to `undefined`) outside the allow-list. -/
theorem get_surfaces_internal_names :
    get (built (.obj .nil)).comp.props .undefined
      = .obj (JsObj.ofList (getAll (built (.obj .nil)).comp.props)) ∧
    (getAll (built (.obj .nil)).comp.props).map Prod.fst = ["schema", "key"] ∧
    ("key", JsVal.undefined) ∈ getAll (built (.obj .nil)).comp.props ∧
    "key" ∉ ["name", "listeners", "passed", "schema"] :=
  ⟨rfl, by decide, by decide, by decide⟩

/-- C6 (amended): the snapshot binds a *defined* value only to
allow-listed names — for every field store, any entry of the full
`get()` snapshot whose value is not `undefined` has its name in
`{name, listeners, passed, schema}`, because `getOne` yields a value
only on the allow-list. Names of other internal fields appear in the
snapshot only bound to `undefined`. -/
theorem get_allowlist_values (props : Fields) :
    ∀ p ∈ getAll props, p.2 ≠ .undefined →
      p.1 ∈ ["name", "listeners", "passed", "schema"] := by
  have hone : ∀ n, getOne props n ≠ .undefined →
      n ∈ ["name", "listeners", "passed", "schema"] := by
    intro n hn
    by_contra hmem
    exact hn (by simp [getOne, _getIfAllowed, hmem])
  have haux : ∀ (l : Fields) (acc : Fields),
      (∀ p ∈ acc, p.2 ≠ .undefined → p.1 ∈ ["name", "listeners", "passed", "schema"]) →
      ∀ p ∈ l.foldl (fun acc q =>
          fieldSet acc (stripUnderscore q.1) (getOne props (stripUnderscore q.1))) acc,
        p.2 ≠ .undefined → p.1 ∈ ["name", "listeners", "passed", "schema"] := by
    intro l
    induction l with
    | nil => intro acc hacc; exact hacc
    | cons q l ih =>
      intro acc hacc
      rw [List.foldl_cons]
      refine ih _ ?_
      intro p hp hne
      rcases mem_fieldSet acc (stripUnderscore q.1)
          (getOne props (stripUnderscore q.1)) p hp with hm | hm
      · exact hacc p hm hne
      · have h2 : p.1 = stripUnderscore q.1 := by rw [hm]
        have h3 : p.2 = getOne props (stripUnderscore q.1) := by rw [hm]
        rw [h2]
        exact hone _ (h3 ▸ hne)
  intro p hp
  exact haux props [] (by intro p hp; cases hp) p hp

/-- Witness for `get_allowlist_values`: the `schema` entry of a fresh
component's snapshot carries a defined value, and its name is indeed on
the allow-list. -/
theorem get_allowlist_values_witness :
    "schema" ∈ ["name", "listeners", "passed", "schema"] :=
  get_allowlist_values (built (.obj .nil)).comp.props
    ("schema", .arr (.cons componentMSONSchema .nil)) (by decide) (by decide)

/-- C7: schema fragments accumulate in order and are never overwritten.
With the stored `_schema` an array `xs`, setting `schema` to fragment `A`
and then to fragment `B` yields `get('schema')` equal to `xs` with `A`
then `B` appended at the end; and after any construction from a
plain-object props, the stored schema sequence has the base type's own
default fragment (`_getComponentMSONSchema`) as its first element. -/
theorem schema_accumulation (f : Nat) (st st1 st2 : SchedState) (xs : JsArr)
    (A B : JsVal) (hA : A ≠ .undefined) (hB : B ≠ .undefined)
    (h0 : fieldGet st.comp.props "_schema" = .arr xs)
    (h1 : setFn f st (.obj (.cons "schema" A .nil)) = .ok st1)
    (h2 : setFn f st1 (.obj (.cons "schema" B .nil)) = .ok st2) :
    getOne st2.comp.props "schema" = .arr ((xs.pushBack A).pushBack B) ∧
    ∀ (fs : JsObj) (st' : SchedState) (w w' : Nat),
      construct f (.obj fs) w = .ok (st', w') →
      ∃ rest, fieldGet st'.comp.props "_schema"
          = .arr (.cons componentMSONSchema rest) := by
  constructor
  · have r1 := setFn_schema_field f st (.cons "schema" A .nil) st1 h1
    have hget1 : (JsObj.cons "schema" A JsObj.nil).get "schema" = A := by
      simp [JsObj.get]
    rcases r1 with ⟨hu, _⟩ | ⟨_, hpush1⟩
    · rw [hget1] at hu
      exact absurd hu hA
    · rw [hget1, h0] at hpush1
      have hp1 : fieldGet st1.comp.props "_schema" = .arr (xs.pushBack A) := hpush1
      have r2 := setFn_schema_field f st1 (.cons "schema" B .nil) st2 h2
      have hget2 : (JsObj.cons "schema" B JsObj.nil).get "schema" = B := by
        simp [JsObj.get]
      rcases r2 with ⟨hu, _⟩ | ⟨_, hpush2⟩
      · rw [hget2] at hu
        exact absurd hu hB
      · rw [hget2, hp1] at hpush2
        exact getOne_schema _ _ hpush2
  · intro fs st' w w' hcon
    obtain ⟨s1, s2, s3, g0, g2, g3, g4, g5⟩ :=
      construct_pipeline f (.obj fs) w st' w' hcon
    have g0' : _setName f (⟨⟨[], []⟩, [], []⟩ : SchedState) (.obj fs) = .ok s1 := g0
    have k1 : fieldGet s1.comp.props "_schema" = .undefined :=
      (_setIfUndefinedProp_fieldGet f _ _ "name" s1 "_schema" g0' (by decide)).trans rfl
    have r1 := setFn_schema_field f s1 (.cons "schema" componentMSONSchema .nil) s2 g2
    have hgetd : (JsObj.cons "schema" componentMSONSchema JsObj.nil).get "schema"
        = componentMSONSchema := by simp [JsObj.get]
    rcases r1 with ⟨hu, _⟩ | ⟨_, hpushd⟩
    · rw [hgetd] at hu
      exact absurd hu (by decide)
    · rw [hgetd, k1] at hpushd
      have k2 : fieldGet s2.comp.props "_schema"
          = .arr (.cons componentMSONSchema .nil) := hpushd
      have g3' : setFn f s2 (.obj fs) = .ok s3 := g3
      have r3 := setFn_schema_field f s2 fs s3 g3'
      have k3 : ∃ rest, fieldGet s3.comp.props "_schema"
          = .arr (.cons componentMSONSchema rest) := by
        rcases r3 with ⟨_, heq⟩ | ⟨_, hpush⟩
        · exact ⟨.nil, heq.trans k2⟩
        · rw [k2] at hpush
          exact ⟨.cons (fs.get "schema") .nil, hpush⟩
      obtain ⟨rest, hrest⟩ := k3
      refine ⟨rest, ?_⟩
      rw [g4]
      show fieldGet (fieldSet (emitChange f "create" s3).comp.props "_key" (.num w))
          "_schema" = .arr (.cons componentMSONSchema rest)
      rw [fieldGet_fieldSet_ne _ _ _ _ (by decide), emitChange_comp]
      exact hrest

/-- Witness for `schema_accumulation`: fragments `1` then `2` pushed onto
a freshly constructed component accumulate behind the base fragment, and
the empty construction starts the sequence with the base fragment. -/
theorem schema_accumulation_witness :
    getOne (setOr (setOr (built (.obj .nil)) (.obj (.cons "schema" (.num 1) .nil)))
        (.obj (.cons "schema" (.num 2) .nil))).comp.props "schema"
      = .arr (((JsArr.cons componentMSONSchema .nil).pushBack (.num 1)).pushBack
          (.num 2)) ∧
    ∃ rest, fieldGet (built (.obj .nil)).comp.props "_schema"
        = .arr (.cons componentMSONSchema rest) := by
  have h := schema_accumulation 10 (built (.obj .nil))
      (setOr (built (.obj .nil)) (.obj (.cons "schema" (.num 1) .nil)))
      (setOr (setOr (built (.obj .nil)) (.obj (.cons "schema" (.num 1) .nil)))
        (.obj (.cons "schema" (.num 2) .nil)))
      (.cons componentMSONSchema .nil) (.num 1) (.num 2)
      (by decide) (by decide) (by decide) rfl rfl
  exact ⟨h.1, h.2 .nil (built (.obj .nil)) 0 1 rfl⟩

/-- Counterexample to C8 as stated: an array passes the
`typeof props !== 'object'` guard (`typeof` of a JS array is
`'object'`), so `set([1])` does not fail at all — it returns with the
component state entirely unchanged, instead of failing with
InvalidArgument as the claim requires for arrays. -/
theorem set_accepts_array :
    setFn 10 (built (.obj .nil)) (.arr (.cons (.num 1) .nil))
      = .ok (built (.obj .nil)) := rfl

/-- C8 (amended): the `set` argument guard. An argument whose JS
`typeof` is not `'object'` fails synchronously with the InvalidArgument
error, before any mutation; `null` passes the `typeof` guard but fails
synchronously with a TypeError at the first property read
(`props['name']` inside `_setName`), still before any mutation; an
array passes the guard and behaves as a mapping carrying none of the
recognized names — no failure, property state and trace unchanged; and
a keyed mapping containing only unrecognized names does not raise,
leaves the property state unchanged, and the full `get()` snapshot is
unchanged (the unrecognized name is never surfaced). -/
theorem set_argument_guard (f : Nat) (st : SchedState) :
    (∀ v : JsVal, typeofIsObject v = false →
      setFn f st v = .error "props must be an object") ∧
    setFn f st .jsNull = .error "TypeError: cannot read properties of null" ∧
    (∀ xs : JsArr, ∃ st', setFn f st (.arr xs) = .ok st' ∧
      st'.comp.props = st.comp.props ∧ st'.trace = st.trace) ∧
    (∀ fs : JsObj,
      (∀ n, n ∈ ["name", "listeners", "passed", "schema"] → fs.get n = .undefined) →
      ∃ st', setFn f st (.obj fs) = .ok st' ∧
        st'.comp.props = st.comp.props ∧
        getAll st'.comp.props = getAll st.comp.props) := by
  refine ⟨?_, rfl, ?_, ?_⟩
  · intro v hv
    simp [setFn, hv]
  · intro xs
    exact ⟨addSub (addSub (removeSub (removeSub st "create" .emitCreated) "load"
        .emitLoaded) "create" .emitCreated) "load" .emitLoaded, rfl, rfl, rfl⟩
  · intro fs h
    have hn := h "name" (by decide)
    have hl := h "listeners" (by decide)
    have hp := h "passed" (by decide)
    have hs := h "schema" (by decide)
    refine ⟨addSub (addSub (removeSub (removeSub st "create" .emitCreated) "load"
        .emitLoaded) "create" .emitCreated) "load" .emitLoaded, ?_, rfl, rfl⟩
    simp [setFn, _setName, _setPassed, _setIfUndefinedProp, _setListenersFn,
      jsIndex, hn, hl, hp, hs, typeofIsObject]

/-- Witness for `set_argument_guard` on a freshly constructed component:
a number is rejected with InvalidArgument, `null` raises the TypeError,
an array and the unrecognized mapping `{foo: 1}` are accepted with state
unchanged. -/
theorem set_argument_guard_witness :
    setFn 5 (built (.obj .nil)) (.num 3) = .error "props must be an object" ∧
    setFn 5 (built (.obj .nil)) .jsNull
      = .error "TypeError: cannot read properties of null" ∧
    (∃ st', setFn 5 (built (.obj .nil)) (.arr .nil) = .ok st' ∧
      st'.comp.props = (built (.obj .nil)).comp.props ∧
      st'.trace = (built (.obj .nil)).trace) ∧
    (∃ st', setFn 5 (built (.obj .nil)) (.obj (.cons "foo" (.num 1) .nil)) = .ok st' ∧
      st'.comp.props = (built (.obj .nil)).comp.props ∧
      getAll st'.comp.props = getAll (built (.obj .nil)).comp.props) := by
  have h := set_argument_guard 5 (built (.obj .nil))
  exact ⟨h.1 (.num 3) (by decide), h.2.1, h.2.2.1 .nil,
    h.2.2.2 (.cons "foo" (.num 1) .nil) (by decide)⟩
